import Mathlib

/-!
Shallow embedding of the blockwise primitive and fusion engine of `cubed`
(`cubed/primitive/blockwise.py`) and of the local Python executor
(`cubed/runtime/executors/python.py`), together with theorems checking the
natural-language specification against the code.

Modelling conventions:
* Chunked arrays are identified by their (globally unique) name; a `Store`
  maps an array name and a chunk key to the chunk's contents.  A
  `CubedArrayProxy` in the Python code wraps a concrete zarr array plus its
  chunks; reading through a proxy is modelled as reading the global store at
  the array's name, and key-to-slice conversion (`key_to_slices`) is dropped
  because chunk keys and chunk slices are in bijection for a fixed grid.
* Chunk contents are values of an abstract type `V`; the user kernel is a
  pure function on (nested structures of) such values, as the spec requires
  kernels to be pure and deterministic.
* Python `list`/`tuple` values both become Lean lists; iterators (used by
  the code only to avoid materialisation) also become lists, since laziness
  is not observable in a pure semantics.
-/

namespace Cubed

/-- A global store of chunked arrays: array name → chunk key → chunk value. -/
def Store (V : Type) := String → List Nat → V

/-- Write one chunk of one array (the effect of `proxy.open()[slices] = result`). -/
def storeWrite {V : Type} (s : Store V) (name : String) (key : List Nat) (v : V) :
    Store V :=
  fun n k => if n = name ∧ k = key then v else s n k

mutual
/-- A name–chunk-index structure as returned by a block function: either a
single `(name, *coords)` tuple, a (possibly nested) list of such tuples
produced for contraction axes, or a literal pass-through argument
(an argument whose index pattern is `None`).  The inner nesting uses the
companion list type `NCIList` (isomorphic to `List NCI`), so that all
recursion over the structure is structural. -/
inductive NCI where
  | leaf (name : String) (coords : List Nat)
  | nest (xs : NCIList)
  | lit (value : String)
inductive NCIList where
  | nil
  | cons (head : NCI) (tail : NCIList)
end

/-- Build the nesting list from an ordinary list. -/
def NCIList.ofList : List NCI → NCIList
  | [] => NCIList.nil
  | x :: xs => NCIList.cons x (NCIList.ofList xs)

/-- View the nesting list as an ordinary list. -/
def NCIList.toList : NCIList → List NCI
  | NCIList.nil => []
  | NCIList.cons x xs => x :: xs.toList

mutual
/-- A nested structure of chunk values, congruent to an `NCI`
(the result of `map_nested(get_chunk, name_chunk_ind)`). -/
inductive NVal (V : Type) where
  | leaf (v : V)
  | nest (xs : NValList V)
  | lit (value : String)
inductive NValList (V : Type) where
  | nil
  | cons (head : NVal V) (tail : NValList V)
end

/-- Build a value-nesting list from an ordinary list. -/
def NValList.ofList {V : Type} : List (NVal V) → NValList V
  | [] => NValList.nil
  | x :: xs => NValList.cons x (NValList.ofList xs)

/-- View a value-nesting list as an ordinary list. -/
def NValList.toList {V : Type} : NValList V → List (NVal V)
  | NValList.nil => []
  | NValList.cons x xs => x :: xs.toList

mutual
/-- Modelled from the spec: `map_nested` (from `cubed.utils`) descends a
nested list structure and applies the function at each non-list element,
preserving the nesting shape.  Here the function is `get_chunk`, which reads
the named chunk from the store.  (A literal is not a valid chunk address;
the Python runner would fail on it, and it is modelled as a pass-through.) -/
def mapNested {V : Type} (read : String → List Nat → V) : NCI → NVal V
  | NCI.leaf n c => NVal.leaf (read n c)
  | NCI.nest xs => NVal.nest (mapNestedList read xs)
  | NCI.lit v => NVal.lit v
def mapNestedList {V : Type} (read : String → List Nat → V) : NCIList → NValList V
  | NCIList.nil => NValList.nil
  | NCIList.cons x xs => NValList.cons (mapNested read x) (mapNestedList read xs)
end

mutual
/-- All `(name, coords)` leaves of a name–chunk-index structure. -/
def NCI.leaves : NCI → List (String × List Nat)
  | NCI.leaf n c => [(n, c)]
  | NCI.nest xs => NCIList.leavesAll xs
  | NCI.lit _ => []
def NCIList.leavesAll : NCIList → List (String × List Nat)
  | NCIList.nil => []
  | NCIList.cons x xs => x.leaves ++ NCIList.leavesAll xs
end

/-- `BlockwiseSpec`: the immutable bundle describing a blockwise operation
(`block_function`, user `function`, `function_nargs`, `num_input_blocks`,
read proxies, write proxies).  Proxies are modelled by the names of the
arrays they wrap. -/
structure BlockwiseSpec (V : Type) where
  block_function : String × List Nat → List NCI
  function : List (NVal V) → V
  function_nargs : Nat
  num_input_blocks : List Nat
  reads_map : List String
  writes_list : List String

/-- `apply_blockwise`: the per-task stage function.  It resolves the output
key through the block function (with the `("out",)` tag prepended), reads
each argument's chunks preserving nesting, applies the user function, and
writes the result to the (single) target.  (The multi-output generator path
is not modelled: the kernels here return a single chunk value, matching the
non-generator branch of the code, which wraps the result in a 1-tuple and
writes it through `writes_list[0]`.) -/
def apply_blockwise {V : Type} (config : BlockwiseSpec V) (store : Store V)
    (out_key : List Nat) : Store V :=
  let args := (config.block_function ("out", out_key)).map
    (mapNested fun n c => store n c)
  let result := config.function args
  match config.writes_list with
  | [] => store
  | w :: _ => storeWrite store w out_key result

/-- Modelled from the spec: `chunk_memory` from `cubed.utils` (§4.5
MemoryProjection): `chunk_bytes(dtype, chunks) = element_size(dtype) *
product(chunk_shape)`.  A dtype is represented by its element byte width. -/
def chunk_memory (dtype_size : Nat) (chunks : List Nat) : Nat :=
  dtype_size * chunks.prod

/-- Modelled from the spec: one axis of `normalize_chunks` (vendored
`dask.array.core.normalize_chunks`): for a chunk size `c` and an axis extent
`n`, the ordered sequence of chunk lengths along that axis — full chunks of
length `c` with the last chunk possibly short (§3 ChunkGrid). -/
def axis_chunks (c n : Nat) : List Nat :=
  List.replicate (n / c) c ++ (if n % c = 0 then [] else [n % c])

/-- Modelled from the spec: `normalize_chunks(chunks, shape, dtype)` for a
chunk-size tuple: the per-axis chunk grids (§3 ChunkGrid).  The dtype plays
no role for explicit integer chunk sizes. -/
def normalize_chunks (chunks shape : List Nat) : List (List Nat) :=
  List.zipWith axis_chunks chunks shape

/-- Modelled from the spec: `to_chunksize` from `cubed.utils`: the regular
chunk shape of a normalized chunk grid, i.e. the (first, maximal) chunk
length on each axis. -/
def to_chunksize (chunks_normal : List (List Nat)) : List Nat :=
  chunks_normal.map (fun c => c.headD 1)

/-- Modelled from the spec: `split_into` from `cubed.utils` (as used by
`fuse_multiple`): split a list into consecutive groups of the given sizes. -/
def split_into {α : Type} : List α → List Nat → List (List α)
  | _, [] => []
  | xs, n :: ns => xs.take n :: split_into (xs.drop n) ns

/-- `itertools.product` over a list of coordinate ranges, each output key a
list (the code converts the product tuples to lists with `map(list, ...)`).
The rightmost axis varies fastest, as in `itertools.product`. -/
def list_product : List (List Nat) → List (List Nat)
  | [] => [[]]
  | xs :: rest => xs.flatMap fun x => (list_product rest).map (x :: ·)

/-- An input array as consumed by `general_blockwise`/`blockwise`:
shape, per-axis chunk size, and dtype element width. -/
structure InputArray where
  name : String
  shape : List Nat
  chunks : List Nat
  dtype_size : Nat

/-- One output of `general_blockwise`: target store name, shape, dtype
element width, and requested chunk sizes. -/
structure OutputSpec where
  store_name : String
  shape : List Nat
  dtype_size : Nat
  chunks : List Nat

/-- A (lazily created or reused) target zarr array: its identity (name),
dtype element width, and regular chunk shape. -/
structure TargetArray where
  name : String
  dtype_size : Nat
  chunks : List Nat

/-- Which stage function a pipeline carries.  `is_fuse_candidate` compares
the pipeline's function against `apply_blockwise` by identity; the model
records that identity as a tag. -/
inductive StageFunc where
  | applyBlockwise
  | other
deriving DecidableEq

/-- `CubedPipeline`: stage function, symbolic name, mappable (the iterable
of output keys, one list of integers per task), and the `BlockwiseSpec`. -/
structure CubedPipeline (V : Type) where
  stage_function : StageFunc
  name : String
  mappable : List (List Nat)
  config : BlockwiseSpec V

/-- `PrimitiveOperation`: pipeline plus source array names, target array(s),
memory accounting, task count and the fusable flag.  `target_array` keeps
the list of targets; the Python code unwraps a singleton list to the bare
array. -/
structure PrimitiveOperation (V : Type) where
  pipeline : CubedPipeline V
  source_array_names : List String
  target_array : List TargetArray
  projected_mem : Nat
  allowed_mem : Nat
  reserved_mem : Nat
  num_tasks : Nat
  fusable : Bool

/-- The data carried by the `ValueError` raised when the projected memory
exceeds `allowed_mem` (projected, allowed and reserved bytes). -/
structure MemoryBudgetExceeded where
  projected_mem : Nat
  allowed_mem : Nat
  reserved_mem : Nat
deriving DecidableEq

/-- The projected-memory computation of `general_blockwise`:
`reserved_mem + extra_projected_mem`, plus twice the chunk bytes of every
input array, plus the running maximum over outputs of twice the chunk bytes
of the output chunk (computed in the target-creation loop with accumulator
`output_chunk_memory` starting at 0). -/
def general_blockwise_projected_mem (arrays : List InputArray)
    (outs : List OutputSpec) (reserved_mem extra_projected_mem : Nat) : Nat :=
  let output_chunk_memory := outs.foldl
    (fun acc o =>
      max acc (chunk_memory o.dtype_size (to_chunksize (normalize_chunks o.chunks o.shape)) * 2))
    0
  let with_inputs := arrays.foldl
    (fun acc a => acc + chunk_memory a.dtype_size a.chunks * 2)
    (reserved_mem + extra_projected_mem)
  with_inputs + output_chunk_memory

/-- The chunk grid used for `output_blocks` and `num_tasks`: the Python loop
variable `chunks_normal` retains the value from the *last* loop iteration,
i.e. the normalized grid of the last output (`[]` if there are no outputs,
where the Python code would raise `NameError`). -/
def general_blockwise_last_grid (outs : List OutputSpec) : List (List Nat) :=
  ((outs.map fun o => normalize_chunks o.chunks o.shape).getLast?).getD []

/-- `general_blockwise`: build a `PrimitiveOperation` from a kernel, a block
function, input arrays and output specifications, failing with
`MemoryBudgetExceeded` when the projected memory exceeds `allowed_mem`.
Keyword binding of the kernel (`partial(func, **kwargs)`) is left to the
caller: `function` is already closed over its keyword arguments. -/
def general_blockwise {V : Type} (function : List (NVal V) → V)
    (block_function : String × List Nat → List NCI)
    (arrays : List InputArray) (allowed_mem reserved_mem : Nat)
    (outs : List OutputSpec) (extra_projected_mem : Nat) (fusable : Bool)
    (num_input_blocks : Option (List Nat)) :
    Except MemoryBudgetExceeded (PrimitiveOperation V) :=
  let array_names := arrays.map (·.name)
  let nib := num_input_blocks.getD (List.replicate arrays.length 1)
  let target_array : List TargetArray := outs.map fun o =>
    { name := o.store_name
      dtype_size := o.dtype_size
      chunks := to_chunksize (normalize_chunks o.chunks o.shape) }
  let spec : BlockwiseSpec V :=
    { block_function := block_function
      function := function
      function_nargs := arrays.length
      num_input_blocks := nib
      reads_map := array_names
      writes_list := outs.map (·.store_name) }
  let projected_mem :=
    general_blockwise_projected_mem arrays outs reserved_mem extra_projected_mem
  if projected_mem > allowed_mem then
    .error ⟨projected_mem, allowed_mem, reserved_mem⟩
  else
    let chunks_normal := general_blockwise_last_grid outs
    let output_blocks := list_product (chunks_normal.map fun c => List.range c.length)
    let num_tasks := (chunks_normal.map (·.length)).prod
    .ok
      { pipeline :=
          { stage_function := .applyBlockwise
            name := "apply_blockwise"
            mappable := output_blocks
            config := spec }
        source_array_names := array_names
        target_array := target_array
        projected_mem := projected_mem
        allowed_mem := allowed_mem
        reserved_mem := reserved_mem
        num_tasks := num_tasks
        fusable := fusable }

/-- Whether a `general_blockwise` call succeeded. -/
def gbOk {V : Type} : Except MemoryBudgetExceeded (PrimitiveOperation V) → Bool
  | .ok _ => true
  | .error _ => false

/-- The `num_tasks` of a successful call (0 on failure). -/
def gbNumTasks {V : Type} : Except MemoryBudgetExceeded (PrimitiveOperation V) → Nat
  | .ok op => op.num_tasks
  | .error _ => 0

/-- The `mappable` of a successful call (`[]` on failure). -/
def gbMappable {V : Type} :
    Except MemoryBudgetExceeded (PrimitiveOperation V) → List (List Nat)
  | .ok op => op.pipeline.mappable
  | .error _ => []

/-- The `projected_mem` recorded in the result: the operation's on success,
the error payload's on failure (both are the same computed value). -/
def gbProjectedMem {V : Type} :
    Except MemoryBudgetExceeded (PrimitiveOperation V) → Nat
  | .ok op => op.projected_mem
  | .error e => e.projected_mem

/-- The chunk value a blockwise task computes for an output key: resolve
the key through the block function, read every argument, apply the kernel. -/
def compute_chunk {V : Type} (config : BlockwiseSpec V) (store : Store V)
    (k : List Nat) : V :=
  config.function ((config.block_function ("out", k)).map
    (mapNested fun n c => store n c))

/-- Run `apply_blockwise` for each key of a list in order, threading the
store. -/
def run_keys {V : Type} (config : BlockwiseSpec V) (keys : List (List Nat))
    (store : Store V) : Store V :=
  keys.foldl (apply_blockwise config) store

/-- Execute a primitive operation with the local semantics: run
`apply_blockwise` for every output key of the pipeline's mappable, in
order, threading the store. -/
def run_op {V : Type} (op : PrimitiveOperation V) (store : Store V) : Store V :=
  run_keys op.pipeline.config op.pipeline.mappable store

/-- `is_fuse_candidate`: the operation's pipeline function is
`apply_blockwise` (identity comparison, modelled by the stage-function tag). -/
def is_fuse_candidate {V : Type} (primitive_op : PrimitiveOperation V) : Bool :=
  primitive_op.pipeline.stage_function = StageFunc.applyBlockwise

/-- `can_fuse_primitive_ops`: both candidates and equal task counts. -/
def can_fuse_primitive_ops {V : Type}
    (primitive_op1 primitive_op2 : PrimitiveOperation V) : Bool :=
  if is_fuse_candidate primitive_op1 ∧ is_fuse_candidate primitive_op2 then
    primitive_op1.num_tasks = primitive_op2.num_tasks
  else
    false

/-- Modelled from the spec: `MemoryModeller` from `cubed.primitive.types`
(§3 MemoryModel): a running `(allocated, peak)` pair, bumped by `allocate`
and `free`; the peak is the maximum allocated watermark.  Integers, since
`free` receives a difference that could in principle be negative. -/
structure MemoryModeller where
  current_mem : Int
  peak_mem : Int

def MemoryModeller.allocate (m : MemoryModeller) (num_bytes : Int) : MemoryModeller :=
  { current_mem := m.current_mem + num_bytes
    peak_mem := max m.peak_mem (m.current_mem + num_bytes) }

def MemoryModeller.free (m : MemoryModeller) (num_bytes : Int) : MemoryModeller :=
  { current_mem := m.current_mem - num_bytes
    peak_mem := max m.peak_mem (m.current_mem - num_bytes) }

/-- The chunk bytes of an operation's (single) target array
(`chunk_memory(p.target_array.dtype, p.target_array.chunks)`).  The
attribute accesses require the unwrapped single target that
`general_blockwise` produces for one output; when `target_array` is still a
list — a multi-output operation (or one with no outputs) — Python raises
`AttributeError`, modelled as `none`. -/
def target_chunk_memory {V : Type} (p : PrimitiveOperation V) : Option Nat :=
  match p.target_array with
  | [ta] => some (chunk_memory ta.dtype_size ta.chunks)
  | _ => none

/-- The loop of `peak_projected_mem`: allocate the operation's
`projected_mem`, read its target's chunk bytes (which can raise: `none`
aborts the whole computation, as the Python exception does), free
everything but the target chunk, and continue. -/
def peak_projected_mem_go {V : Type} :
    List (PrimitiveOperation V) → MemoryModeller → Option MemoryModeller
  | [], modeller => some modeller
  | p :: ps, modeller =>
    let modeller := modeller.allocate p.projected_mem
    match target_chunk_memory p with
    | none => none
    | some chunkmem =>
        peak_projected_mem_go ps (modeller.free ((p.projected_mem : Int) - chunkmem))

/-- `peak_projected_mem`: simulate running the given operations in order,
allocating each operation's `projected_mem` and then freeing everything but
its target chunk; return the peak watermark.  Raises (returns `none`) when
some operation's `target_array` is not a single unwrapped array. -/
def peak_projected_mem {V : Type} (primitive_ops : List (PrimitiveOperation V)) :
    Option Int :=
  (peak_projected_mem_go primitive_ops { current_mem := 0, peak_mem := 0 }).map
    (fun modeller => modeller.peak_mem)

/-- The loop accumulating `total_num_input_blocks` in
`can_fuse_multiple_primitive_ops`: for each slot fan-in `ni` of the consumer
paired (by `zip`) with its predecessor `p`, add `ni * nj` for every fan-in
`nj` of `p`. -/
def total_num_input_blocks {V : Type} (num_input_blocks : List Nat)
    (predecessor_primitive_ops : List (PrimitiveOperation V)) : Nat :=
  (num_input_blocks.zip predecessor_primitive_ops).foldl
    (fun acc (pair : Nat × PrimitiveOperation V) =>
      pair.2.pipeline.config.num_input_blocks.foldl
        (fun acc2 nj => acc2 + pair.1 * nj) acc)
    0

/-- `can_fuse_multiple_primitive_ops`: all candidates; peak projected memory
of the predecessors within budget; uniform consumer fan-in; then either the
total-input-blocks bound (when `max_total_num_input_blocks` is given) or
equality of all task counts.  The peak-memory computation can raise
(`AttributeError` on a multi-target predecessor); the exception propagates
out of the decision, modelled as `none`. -/
def can_fuse_multiple_primitive_ops {V : Type} (primitive_op : PrimitiveOperation V)
    (predecessor_primitive_ops : List (PrimitiveOperation V))
    (max_total_num_input_blocks : Option Nat) : Option Bool :=
  if is_fuse_candidate primitive_op ∧
      predecessor_primitive_ops.all (fun p => is_fuse_candidate p) then
    match peak_projected_mem predecessor_primitive_ops with
    | none => none
    | some peak_projected =>
      if peak_projected > (primitive_op.allowed_mem : Int) then
        some false
      else
        let num_input_blocks := primitive_op.pipeline.config.num_input_blocks
        if ¬ (num_input_blocks.all fun n => num_input_blocks.headD 0 = n) then
          some false
        else
          match max_total_num_input_blocks with
          | none =>
              some (predecessor_primitive_ops.all fun p =>
                primitive_op.num_tasks = p.num_tasks)
          | some m =>
              some (total_num_input_blocks num_input_blocks
                predecessor_primitive_ops ≤ m)
  else
    some false

/-- The fused block function of `fuse`:
`block1(*block2(out_key))` — the consumer's block function translates the
consumer's output key, and its (single) name–chunk index is passed to the
producer's block function as the producer's tagged output key.  The Python
splat requires the consumer to read exactly one chunk, and raises
`TypeError` otherwise; other shapes are mapped to `[]` here. -/
def fused_blockwise_func {V : Type} (config1 config2 : BlockwiseSpec V) :
    String × List Nat → List NCI := fun out_key =>
  match config2.block_function out_key with
  | [NCI.leaf n c] => config1.block_function (n, c)
  | _ => []

/-- The fused kernel of `fuse`: `function2(function1(*args))` — the
producer's result becomes the single argument of the consumer's kernel. -/
def fused_func {V : Type} (config1 config2 : BlockwiseSpec V) :
    List (NVal V) → V := fun args =>
  config2.function [NVal.leaf (config1.function args)]

/-- `fuse`: fuse two blockwise operations into one; the first operation is
the producer, whose target is neither written nor read by the fused
operation.  Read proxies come from the producer, write proxies, mappable
and task count from the consumer; projected memory is the max of the two;
allowed/reserved memory inherit from the consumer; the result is always
fusable. -/
def fuse {V : Type} (primitive_op1 primitive_op2 : PrimitiveOperation V) :
    PrimitiveOperation V :=
  let pipeline1 := primitive_op1.pipeline
  let pipeline2 := primitive_op2.pipeline
  let spec : BlockwiseSpec V :=
    { block_function := fused_blockwise_func pipeline1.config pipeline2.config
      function := fused_func pipeline1.config pipeline2.config
      function_nargs := pipeline1.config.function_nargs
      num_input_blocks := pipeline1.config.num_input_blocks.map
        (fun n => n * pipeline2.config.num_input_blocks.headD 0)
      reads_map := pipeline1.config.reads_map
      writes_list := pipeline2.config.writes_list }
  { pipeline :=
      { stage_function := .applyBlockwise
        name := "fused_apply_blockwise"
        mappable := pipeline2.mappable
        config := spec }
    source_array_names := primitive_op1.source_array_names
    target_array := primitive_op2.target_array
    projected_mem := max primitive_op1.projected_mem primitive_op2.projected_mem
    allowed_mem := primitive_op2.allowed_mem
    reserved_mem := primitive_op2.reserved_mem
    num_tasks := primitive_op2.num_tasks
    fusable := true }

/-- Transpose with Python `zip(*rows)` semantics: the result length is the
length of the shortest row (each column keeps one element per row; for
`i` below every row length, `get?` always succeeds). -/
def zip_transpose {α : Type} (rows : List (List α)) : List (List α) :=
  match (rows.map (·.length)).min? with
  | none => []
  | some m => (List.range m).map fun i => rows.filterMap fun r => r.get? i

/-- `apply_pipeline_block_func` from `fuse_multiple`: translate one consumer
argument through a predecessor's block function.  A missing predecessor
passes the argument through as a 1-tuple; a fan-in of 1 applies the block
function to the single key; a larger fan-in maps the block function over
the sequence of keys and transposes, one (lazy, here eager) sequence per
predecessor-nargs position.  The Python `assert isinstance` failures are
mapped to `[]`. -/
def apply_pipeline_block_func {V : Type} (p : Option (BlockwiseSpec V))
    (n_input_blocks : Nat) (arg : NCI) : List NCI :=
  match p with
  | none => [arg]
  | some spec =>
    if n_input_blocks = 1 then
      match arg with
      | NCI.leaf n c => spec.block_function (n, c)
      | _ => []
    else
      match arg with
      | NCI.nest xs =>
          (zip_transpose (xs.toList.map fun a =>
            match a with
            | NCI.leaf n c => spec.block_function (n, c)
            | _ => [])).map fun g => NCI.nest (NCIList.ofList g)
      | _ => []

/-- The items of a group argument (a Python list unpacked by `*a`). -/
def NVal.items {V : Type} : NVal V → List (NVal V)
  | NVal.nest xs => xs.toList
  | x => [x]

/-- `apply_pipeline_func` from `fuse_multiple`: run one predecessor kernel
over its group of arguments.  A missing predecessor returns `args[0]`; a
fan-in of 1 calls the kernel once; a larger fan-in maps the kernel across
the zipped argument sequences, yielding one result per fan-in item. -/
def apply_pipeline_func {V : Type} (p : Option (BlockwiseSpec V))
    (n_input_blocks : Nat) (args : List (NVal V)) : NVal V :=
  match p with
  | none => args.headD (NVal.nest NValList.nil)
  | some spec =>
    if n_input_blocks = 1 then
      NVal.leaf (spec.function args)
    else
      NVal.nest (NValList.ofList
        ((zip_transpose (args.map fun a => a.items)).map
          fun col => NVal.leaf (spec.function col)))

/-- `fuse_multiple`: fuse a blockwise operation with its immediate
predecessors (`none` marks a slot whose input stays an original array).
The fused block function splits the consumer's per-slot expansions into
groups by predecessor nargs; the fused kernel applies each predecessor
kernel to its group and feeds the results to the consumer kernel.  The
projected memory uses `peak_projected_mem` over the present predecessors,
which raises on a multi-target predecessor; the exception propagates
(`none`). -/
def fuse_multiple {V : Type} (primitive_op : PrimitiveOperation V)
    (predecessor_primitive_ops : List (Option (PrimitiveOperation V))) :
    Option (PrimitiveOperation V) :=
  let pipeline := primitive_op.pipeline
  let predecessor_pipelines : List (Option (BlockwiseSpec V)) :=
    predecessor_primitive_ops.map fun p? => p?.map (·.pipeline.config)
  let predecessor_funcs_nargs : List Nat :=
    predecessor_pipelines.map fun p? =>
      match p? with
      | some spec => spec.function_nargs
      | none => 1
  let fused_blockwise_func : String × List Nat → List NCI := fun out_key =>
    let args := pipeline.config.block_function out_key
    let func_args := ((predecessor_pipelines.zip args).enum).flatMap
      fun ia : Nat × (Option (BlockwiseSpec V) × NCI) =>
        apply_pipeline_block_func ia.2.1
          (pipeline.config.num_input_blocks.getD ia.1 0) ia.2.2
    (split_into func_args predecessor_funcs_nargs).map fun g => NCI.nest (NCIList.ofList g)
  let fused_func : List (NVal V) → V := fun args =>
    let func_args := ((predecessor_pipelines.zip args).enum).map
      fun ia : Nat × (Option (BlockwiseSpec V) × NVal V) =>
        apply_pipeline_func ia.2.1
          (pipeline.config.num_input_blocks.getD ia.1 0) ia.2.2.items
    pipeline.config.function func_args
  let fused_num_input_blocks : List Nat :=
    (predecessor_primitive_ops.flatMap fun p? =>
      match p? with
      | some p => p.pipeline.config.num_input_blocks
      | none => [1]).map
      fun n => pipeline.config.num_input_blocks.headD 0 * n
  let read_proxies : List String :=
    pipeline.config.reads_map ++
      predecessor_pipelines.flatMap fun p? =>
        match p? with
        | some spec => spec.reads_map
        | none => []
  let spec : BlockwiseSpec V :=
    { block_function := fused_blockwise_func
      function := fused_func
      function_nargs := pipeline.config.function_nargs
      num_input_blocks := fused_num_input_blocks
      reads_map := read_proxies
      writes_list := pipeline.config.writes_list }
  let source_array_names : List String :=
    (predecessor_primitive_ops.enum).flatMap
      fun ip : Nat × Option (PrimitiveOperation V) =>
        match ip.2 with
        | none => [primitive_op.source_array_names.getD ip.1 ""]
        | some p => p.source_array_names
  match peak_projected_mem (predecessor_primitive_ops.filterMap id) with
  | none => none
  | some peak =>
    some
      { pipeline :=
          { stage_function := .applyBlockwise
            name := "fused_apply_blockwise"
            mappable := pipeline.mappable
            config := spec }
        source_array_names := source_array_names
        target_array := primitive_op.target_array
        projected_mem := max primitive_op.projected_mem peak.toNat
        allowed_mem := primitive_op.allowed_mem
        reserved_mem := primitive_op.reserved_mem
        num_tasks := primitive_op.num_tasks
        fusable := true }

/-- A coordinate entry in the coordinate set of the index planner: either a
fixed block coordinate (from the output key) or the full range of block
indices along a contraction (dummy) axis. -/
inductive CoordSpec where
  | val (n : Nat)
  | range (m : Nat)

/-- Modelled from the spec: `lol_product` (vendored `dask.blockwise`), §4.1
step 4: expand the coordinate entries left to right, building the
`(name, coord…)` tuple; a range entry produces one nesting level, the list
ordered by increasing block index. -/
def lol_product (name : String) (acc : List Nat) : List CoordSpec → NCI
  | [] => NCI.leaf name acc
  | CoordSpec.val n :: rest => lol_product name (acc ++ [n]) rest
  | CoordSpec.range m :: rest =>
      NCI.nest (NCIList.ofList ((List.range m).map fun i => lol_product name (acc ++ [i]) rest))

/-- Modelled from the spec: `_make_dims` (vendored `dask.blockwise`), §4.1
step 1: the number of blocks along the axis a label denotes, taken from any
input carrying the label (all carriers must agree, which is not needed for
the properties below — the first carrier is used), or from `new_axes` for
output-only labels. -/
def dims_of (argpairs : List (String × Option (List String)))
    (numblocks : String → List Nat) (new_axes : List (String × Nat))
    (label : String) : Nat :=
  match argpairs.findSome? (fun pr =>
    pr.2.bind fun ind =>
      (ind.findIdx? (· = label)).map fun i => (numblocks pr.1).getD i 1) with
  | some n => n
  | none => ((new_axes.find? (fun ax => ax.1 = label)).map (·.2)).getD 1

/-- `make_blockwise_function`: the pure block function of the
index-notation lowering.  For each argument pair: a literal (`ind = None`)
passes through; otherwise each of the argument's labels is mapped to the
corresponding output coordinate, or to the range of block indices when it
is a contraction label; arguments with contraction labels expand to a
nested list (`lol_product`), the rest to a single `(name, coord…)` tuple.
(The Python function also places the user function at position 0 of the
returned tuple; `make_blockwise_function_flattened` drops it, and the model
omits it.) -/
def make_blockwise_function (argpairs : List (String × Option (List String)))
    (out_indices : List String) (numblocks : String → List Nat)
    (new_axes : List (String × Nat)) : String × List Nat → List NCI :=
  let dims := dims_of argpairs numblocks new_axes
  fun out_key =>
    let out_coords := out_key.2
    argpairs.map fun pr =>
      match pr.2 with
      | none => NCI.lit pr.1
      | some ind =>
        let coordspecs : List CoordSpec := ind.map fun label =>
          match out_indices.findIdx? (· = label) with
          | some i => CoordSpec.val (out_coords.getD i 0)
          | none => CoordSpec.range (dims label)
        if ind.all (fun label => out_indices.contains label) then
          NCI.leaf pr.1 (coordspecs.map fun cs =>
            match cs with
            | CoordSpec.val n => n
            | CoordSpec.range _ => 0)
        else
          lol_product pr.1 [] coordspecs

mutual
/-- `flatten` (vendored `dask.core`) applied to one entry: descend nested
lists, yield non-list items (tuples, literals) as they are. -/
def NCI.flattenList : NCI → List NCI
  | NCI.nest xs => NCIList.flattenAll xs
  | x => [x]
def NCIList.flattenAll : NCIList → List NCI
  | NCIList.nil => []
  | NCIList.cons x xs => x.flattenList ++ NCIList.flattenAll xs
end

/-- `make_blockwise_function_flattened`: drop the function at position 0
and, if the first remaining entry is a list (the first argument carries
contraction axes), flatten all (nested) lists into a flat sequence of
`(name, coord…)` tuples. -/
def make_blockwise_function_flattened
    (argpairs : List (String × Option (List String)))
    (out_indices : List String) (numblocks : String → List Nat)
    (new_axes : List (String × Nat)) : String × List Nat → List NCI :=
  let blockwise_fn := make_blockwise_function argpairs out_indices numblocks new_axes
  fun out_key =>
    let name_chunk_inds := blockwise_fn out_key
    match name_chunk_inds with
    | NCI.nest _ :: _ => name_chunk_inds.flatMap NCI.flattenList
    | _ => name_chunk_inds

/-- `blockwise`: the index-notation lowering.  Computes each input's
numblocks from its normalized chunks, builds the flattened block function,
and hands off to `general_blockwise` with a single output. -/
def blockwise {V : Type} (function : List (NVal V) → V)
    (arrays : List InputArray) (inds : List (List String))
    (out_ind : List String) (allowed_mem reserved_mem : Nat)
    (out : OutputSpec) (new_axes : List (String × Nat))
    (extra_projected_mem : Nat) (fusable : Bool)
    (num_input_blocks : Option (List Nat)) :
    Except MemoryBudgetExceeded (PrimitiveOperation V) :=
  let numblocks : String → List Nat := fun name =>
    match arrays.find? (fun a => a.name = name) with
    | some a => (normalize_chunks a.chunks a.shape).map (·.length)
    | none => []
  let argpairs : List (String × Option (List String)) :=
    (arrays.zip inds).map fun p => (p.1.name, some p.2)
  general_blockwise function
    (make_blockwise_function_flattened argpairs out_ind numblocks new_axes)
    arrays allowed_mem reserved_mem [out] extra_projected_mem fusable
    num_input_blocks

/-! The local Python executor (`cubed/runtime/executors/python.py`).
A task's behaviour is a pure function from the attempt number to its
outcome, which captures flaky tasks; `E` is the exception type. -/

/-- The `tenacity.retry(stop=stop_after_attempt(n))` wrapper around a
function: run attempt `a`; on success return, on failure retry until `n`
attempts in total have been made, then propagate the last attempt's
exception (tenacity raises `RetryError` carrying that last exception). -/
def retrying {E : Type} (f : Nat → Except E Unit) : Nat → Nat → Except E Unit
  | a, 0 => f a
  | a, 1 => f a
  | a, n + 2 =>
    match f a with
    | .ok u => .ok u
    | .error _ => retrying f (a + 1) (n + 1)

/-- `exec_stage_func`: the stage function wrapped with
`@retry(stop=stop_after_attempt(3))`. -/
def exec_stage_func {E : Type} (f : Nat → Except E Unit) : Except E Unit :=
  retrying f 0 3

/-- One stage of a pipeline: either a mappable stage (one behaviour per
task) or a single-call stage (`stage.mappable is None`). -/
inductive Stage (E : Type) where
  | mapped (tasks : List (Nat → Except E Unit))
  | single (task : Nat → Except E Unit)

/-- The inner loop of `execute_dag` over a stage's mappable: execute each
task with retries, incrementing the callback counter after each success;
an exception aborts the remaining tasks. -/
def run_tasks {E : Type} : List (Nat → Except E Unit) → Nat → Except E Nat
  | [], callback => .ok callback
  | t :: ts, callback =>
    match exec_stage_func t with
    | .ok _ => run_tasks ts (callback + 1)
    | .error e => .error e

/-- Execute one stage, returning the updated callback counter. -/
def run_stage {E : Type} (stage : Stage E) (callback : Nat) : Except E Nat :=
  match stage with
  | .mapped ts => run_tasks ts callback
  | .single t =>
    match exec_stage_func t with
    | .ok _ => .ok (callback + 1)
    | .error e => .error e

/-- Execute the stages of one pipeline in order; an exception stops. -/
def run_stages {E : Type} : List (Stage E) → Nat → Except E Nat
  | [], callback => .ok callback
  | s :: ss, callback =>
    match run_stage s callback with
    | .ok callback' => run_stages ss callback'
    | .error e => .error e

/-- `PythonDagExecutor.execute_dag`: run every node's pipeline (the node
order is fixed by the reversed topological sort, which the model takes as
given by the list order); an uncaught exception stops DAG execution. -/
def execute_dag {E : Type} : List (List (Stage E)) → Nat → Except E Nat
  | [], callback => .ok callback
  | p :: ps, callback =>
    match run_stages p callback with
    | .ok callback' => execute_dag ps callback'
    | .error e => .error e

/-! Concrete instances used to witness (or refute) individual claims. -/

/-- The all-zero initial store over natural-number chunk values. -/
def zeroStore : Store Nat := fun _ _ => 0

/-- A concrete producer operation: reads array `x`, writes array `a`,
kernel `v ↦ v + 1`, one task with key `[0]`. -/
def producerOp : PrimitiveOperation Nat :=
  { pipeline :=
      { stage_function := .applyBlockwise
        name := "producer"
        mappable := [[0]]
        config :=
          { block_function := fun key => [NCI.leaf "x" key.2]
            function := fun args =>
              match args with
              | [NVal.leaf v] => v + 1
              | _ => 0
            function_nargs := 1
            num_input_blocks := [1]
            reads_map := ["x"]
            writes_list := ["a"] } }
    source_array_names := ["x"]
    target_array := [{ name := "a", dtype_size := 1, chunks := [1] }]
    projected_mem := 4
    allowed_mem := 100
    reserved_mem := 0
    num_tasks := 1
    fusable := true }

/-- A concrete consumer operation: reads array `a`, writes array `b`,
kernel `v ↦ v * 2`, one task with key `[0]`. -/
def consumerOp : PrimitiveOperation Nat :=
  { pipeline :=
      { stage_function := .applyBlockwise
        name := "consumer"
        mappable := [[0]]
        config :=
          { block_function := fun key => [NCI.leaf "a" key.2]
            function := fun args =>
              match args with
              | [NVal.leaf v] => v * 2
              | _ => 0
            function_nargs := 1
            num_input_blocks := [1]
            reads_map := ["a"]
            writes_list := ["b"] } }
    source_array_names := ["a"]
    target_array := [{ name := "b", dtype_size := 1, chunks := [1] }]
    projected_mem := 4
    allowed_mem := 100
    reserved_mem := 0
    num_tasks := 1
    fusable := true }

/-- A trivial fuse-candidate operation with *two* target arrays, as a
multi-output `general_blockwise` call produces (its `target_array` is a
list, not an unwrapped array). -/
def multiTargetOp : PrimitiveOperation Nat :=
  { pipeline :=
      { stage_function := .applyBlockwise
        name := "multi"
        mappable := [[0]]
        config :=
          { block_function := fun _ => []
            function := fun _ => 0
            function_nargs := 0
            num_input_blocks := [1]
            reads_map := []
            writes_list := ["t1", "t2"] } }
    source_array_names := []
    target_array := [{ name := "t1", dtype_size := 1, chunks := [1] },
      { name := "t2", dtype_size := 1, chunks := [1] }]
    projected_mem := 0
    allowed_mem := 100
    reserved_mem := 0
    num_tasks := 1
    fusable := true }

/-- A trivial one-task operation with a given `num_input_blocks` tuple,
used to probe the fan-in arithmetic of `fuse`. -/
def nibOp (nib : List Nat) : PrimitiveOperation Nat :=
  { pipeline :=
      { stage_function := .applyBlockwise
        name := "op"
        mappable := [[0]]
        config :=
          { block_function := fun _ => []
            function := fun _ => 0
            function_nargs := nib.length
            num_input_blocks := nib
            reads_map := []
            writes_list := ["t"] } }
    source_array_names := []
    target_array := [{ name := "t", dtype_size := 1, chunks := [1] }]
    projected_mem := 0
    allowed_mem := 100
    reserved_mem := 0
    num_tasks := 1
    fusable := true }

/-! ### Helper lemmas -/

theorem foldl_add_map {α : Type} (l : List α) (f : α → Nat) (init : Nat) :
    l.foldl (fun acc a => acc + f a) init = init + (l.map f).sum := by
  induction l generalizing init with
  | nil => simp
  | cons a t ih => simp [List.foldl_cons, ih, Nat.add_assoc]

theorem foldl_max_map {α : Type} (l : List α) (f : α → Nat) (init : Nat) :
    l.foldl (fun acc a => max acc (f a)) init = max init ((l.map f).foldr max 0) := by
  induction l generalizing init with
  | nil => simp
  | cons a t ih => simp [List.foldl_cons, ih, Nat.max_assoc]

theorem gbProjectedMem_eq {V : Type} (function : List (NVal V) → V)
    (block_function : String × List Nat → List NCI) (arrays : List InputArray)
    (allowed_mem reserved_mem : Nat) (outs : List OutputSpec)
    (extra_projected_mem : Nat) (fusable : Bool) (nib : Option (List Nat)) :
    gbProjectedMem (general_blockwise function block_function arrays allowed_mem
        reserved_mem outs extra_projected_mem fusable nib) =
      general_blockwise_projected_mem arrays outs reserved_mem extra_projected_mem := by
  unfold general_blockwise
  by_cases hc : general_blockwise_projected_mem arrays outs reserved_mem
      extra_projected_mem > allowed_mem
  · simp only [hc, if_true, gbProjectedMem]
  · simp only [hc, if_false, gbProjectedMem]

/-- C3: for every successful call to `general_blockwise`, the recorded
`projected_mem` equals `reserved_mem + extra_projected_mem`, plus the sum
over input arrays of twice the input chunk bytes, plus the maximum over
outputs of twice the output chunk bytes, where chunk bytes are the dtype
element size times the product of the chunk shape. -/
theorem C3_projected_mem_formula {V : Type} (function : List (NVal V) → V)
    (block_function : String × List Nat → List NCI) (arrays : List InputArray)
    (allowed_mem reserved_mem : Nat) (outs : List OutputSpec)
    (extra_projected_mem : Nat) (fusable : Bool) (nib : Option (List Nat))
    (h : gbOk (general_blockwise function block_function arrays allowed_mem
      reserved_mem outs extra_projected_mem fusable nib) = true) :
    gbProjectedMem (general_blockwise function block_function arrays allowed_mem
        reserved_mem outs extra_projected_mem fusable nib) =
      reserved_mem + extra_projected_mem
        + (arrays.map fun a => 2 * (a.dtype_size * a.chunks.prod)).sum
        + (outs.map fun o => 2 * (o.dtype_size *
            (to_chunksize (normalize_chunks o.chunks o.shape)).prod)).foldr max 0 := by
  rw [gbProjectedMem_eq]
  unfold general_blockwise_projected_mem
  rw [foldl_add_map, foldl_max_map]
  simp only [chunk_memory, Nat.zero_max]
  congr 1
  congr 1
  · congr 1
    apply List.map_congr_left
    intro a _
    ring
  · apply congrArg (List.foldr max 0)
    apply List.map_congr_left
    intro o _
    ring

/-- A witness: a concrete successful call whose projected memory matches
the formula of the claim. -/
theorem C3_projected_mem_formula_witness :
    gbOk (general_blockwise (V := Nat) (fun _ => 0) (fun _ => [])
        [{ name := "x", shape := [4], chunks := [2], dtype_size := 8 }] 1000 7
        [{ store_name := "t", shape := [4], dtype_size := 4, chunks := [2] }]
        5 true none) = true ∧
    gbProjectedMem (general_blockwise (V := Nat) (fun _ => 0) (fun _ => [])
        [{ name := "x", shape := [4], chunks := [2], dtype_size := 8 }] 1000 7
        [{ store_name := "t", shape := [4], dtype_size := 4, chunks := [2] }]
        5 true none) = 7 + 5 + 32 + 16 := by
  refine ⟨by decide, ?_⟩
  have h := C3_projected_mem_formula (V := Nat) (fun _ => 0) (fun _ => [])
    [{ name := "x", shape := [4], chunks := [2], dtype_size := 8 }] 1000 7
    [{ store_name := "t", shape := [4], dtype_size := 4, chunks := [2] }]
    5 true none (by decide)
  rw [h]
  decide

/-- C4: `general_blockwise` fails — with an error carrying the projected,
allowed, and reserved memory values — exactly when the computed
`projected_mem` is strictly greater than `allowed_mem`; on failure no
`PrimitiveOperation` is constructed, otherwise construction proceeds. -/
theorem C4_memory_budget {V : Type} (function : List (NVal V) → V)
    (block_function : String × List Nat → List NCI) (arrays : List InputArray)
    (allowed_mem reserved_mem : Nat) (outs : List OutputSpec)
    (extra_projected_mem : Nat) (fusable : Bool) (nib : Option (List Nat)) :
    (gbOk (general_blockwise function block_function arrays allowed_mem
        reserved_mem outs extra_projected_mem fusable nib) = false ↔
      general_blockwise_projected_mem arrays outs reserved_mem
        extra_projected_mem > allowed_mem)
    ∧ (gbOk (general_blockwise function block_function arrays allowed_mem
        reserved_mem outs extra_projected_mem fusable nib) = false →
      general_blockwise function block_function arrays allowed_mem
          reserved_mem outs extra_projected_mem fusable nib =
        .error
          { projected_mem := general_blockwise_projected_mem arrays outs
              reserved_mem extra_projected_mem
            allowed_mem := allowed_mem
            reserved_mem := reserved_mem }) := by
  by_cases hc : general_blockwise_projected_mem arrays outs reserved_mem
      extra_projected_mem > allowed_mem
  · simp [general_blockwise, gbOk, hc]
  · simp [general_blockwise, gbOk, hc]

/-- A witness: a concrete call over the budget fails with the triple
`(projected, allowed, reserved)`, and a concrete call within the budget
succeeds. -/
theorem C4_memory_budget_witness :
    general_blockwise (V := Nat) (fun _ => 0) (fun _ => [])
        [{ name := "x", shape := [4], chunks := [2], dtype_size := 8 }] 10 3
        [{ store_name := "t", shape := [4], dtype_size := 4, chunks := [2] }]
        0 true none =
      .error { projected_mem := 51, allowed_mem := 10, reserved_mem := 3 }
    ∧ gbOk (general_blockwise (V := Nat) (fun _ => 0) (fun _ => [])
        [{ name := "x", shape := [4], chunks := [2], dtype_size := 8 }] 1000 3
        [{ store_name := "t", shape := [4], dtype_size := 4, chunks := [2] }]
        0 true none) = true := by
  constructor
  · have h := (C4_memory_budget (V := Nat) (fun _ => 0) (fun _ => [])
      [{ name := "x", shape := [4], chunks := [2], dtype_size := 8 }] 10 3
      [{ store_name := "t", shape := [4], dtype_size := 4, chunks := [2] }]
      0 true none).2 (by decide)
    rw [h]
    rfl
  · decide

theorem mem_list_product (ls : List (List Nat)) (k : List Nat) :
    k ∈ list_product ls ↔ List.Forall₂ (fun i xs => i ∈ xs) k ls := by
  induction ls generalizing k with
  | nil =>
    simp [list_product, List.forall₂_nil_right_iff]
  | cons xs rest ih =>
    simp only [list_product, List.mem_flatMap, List.mem_map]
    constructor
    · rintro ⟨x, hx, t, ht, rfl⟩
      exact List.Forall₂.cons hx ((ih t).mp ht)
    · intro hf
      cases hf with
      | cons hx ht => exact ⟨_, hx, _, (ih _).mpr ht, rfl⟩

theorem sum_map_const {α : Type} (l : List α) (c : Nat) :
    (l.map fun _ => c).sum = l.length * c := by
  induction l with
  | nil => simp
  | cons a t ih => simp [ih, Nat.succ_mul, Nat.add_comm]

theorem length_list_product (ls : List (List Nat)) :
    (list_product ls).length = (ls.map List.length).prod := by
  induction ls with
  | nil => simp [list_product]
  | cons xs rest ih =>
    simp only [list_product, List.length_flatMap, Function.comp_def, List.length_map, ih]
    rw [sum_map_const]
    simp [List.prod_cons]

theorem gbNumTasks_eq {V : Type} (function : List (NVal V) → V)
    (block_function : String × List Nat → List NCI) (arrays : List InputArray)
    (allowed_mem reserved_mem : Nat) (outs : List OutputSpec)
    (extra_projected_mem : Nat) (fusable : Bool) (nib : Option (List Nat))
    (h : gbOk (general_blockwise function block_function arrays allowed_mem
      reserved_mem outs extra_projected_mem fusable nib) = true) :
    gbNumTasks (general_blockwise function block_function arrays allowed_mem
        reserved_mem outs extra_projected_mem fusable nib) =
      ((general_blockwise_last_grid outs).map List.length).prod := by
  by_cases hc : general_blockwise_projected_mem arrays outs reserved_mem
      extra_projected_mem > allowed_mem
  · simp [general_blockwise, gbOk, hc] at h
  · simp [general_blockwise, gbNumTasks, hc]

theorem gbMappable_eq {V : Type} (function : List (NVal V) → V)
    (block_function : String × List Nat → List NCI) (arrays : List InputArray)
    (allowed_mem reserved_mem : Nat) (outs : List OutputSpec)
    (extra_projected_mem : Nat) (fusable : Bool) (nib : Option (List Nat))
    (h : gbOk (general_blockwise function block_function arrays allowed_mem
      reserved_mem outs extra_projected_mem fusable nib) = true) :
    gbMappable (general_blockwise function block_function arrays allowed_mem
        reserved_mem outs extra_projected_mem fusable nib) =
      list_product ((general_blockwise_last_grid outs).map fun c =>
        List.range c.length) := by
  by_cases hc : general_blockwise_projected_mem arrays outs reserved_mem
      extra_projected_mem > allowed_mem
  · simp [general_blockwise, gbOk, hc] at h
  · simp [general_blockwise, gbMappable, hc]

/-- A counterexample to C2: a successful `general_blockwise` call with two
outputs whose chunk grids differ.  `num_tasks` is taken from the *last*
output's grid (the Python loop variable `chunks_normal` outlives the loop),
not from the first output's: here the first output has 2 chunks, the second
has 3, and `num_tasks = 3 ≠ 2`. -/
theorem C2_counterexample :
    gbOk (general_blockwise (V := Nat) (fun _ => 0) (fun _ => []) [] 1000 0
        [{ store_name := "a", shape := [4], dtype_size := 1, chunks := [2] },
         { store_name := "b", shape := [6], dtype_size := 1, chunks := [2] }]
        0 true none) = true
    ∧ gbNumTasks (general_blockwise (V := Nat) (fun _ => 0) (fun _ => []) [] 1000 0
        [{ store_name := "a", shape := [4], dtype_size := 1, chunks := [2] },
         { store_name := "b", shape := [6], dtype_size := 1, chunks := [2] }]
        0 true none) ≠
      ((normalize_chunks [2] [4]).map List.length).prod := by
  constructor
  · decide
  · decide

/-- C2 (amended): for every successful call to `general_blockwise`,
`num_tasks` equals the product over axes of the number of chunks in the
normalized chunk grid of the *last* output (equivalently of any output when
all outputs share one grid, as in every single-output call), and the
pipeline's mappable enumerates exactly the Cartesian product of
`range(numblocks_i)` over that same grid, each key an ordered list of
integers. -/
theorem C2_amended {V : Type} (function : List (NVal V) → V)
    (block_function : String × List Nat → List NCI) (arrays : List InputArray)
    (allowed_mem reserved_mem : Nat) (outs : List OutputSpec)
    (extra_projected_mem : Nat) (fusable : Bool) (nib : Option (List Nat))
    (h : gbOk (general_blockwise function block_function arrays allowed_mem
      reserved_mem outs extra_projected_mem fusable nib) = true) :
    (∀ k, k ∈ gbMappable (general_blockwise function block_function arrays
        allowed_mem reserved_mem outs extra_projected_mem fusable nib) ↔
      List.Forall₂ (fun i n => i < n) k
        ((general_blockwise_last_grid outs).map List.length))
    ∧ gbNumTasks (general_blockwise function block_function arrays allowed_mem
        reserved_mem outs extra_projected_mem fusable nib) =
      ((general_blockwise_last_grid outs).map List.length).prod
    ∧ (gbMappable (general_blockwise function block_function arrays allowed_mem
        reserved_mem outs extra_projected_mem fusable nib)).length =
      gbNumTasks (general_blockwise function block_function arrays allowed_mem
        reserved_mem outs extra_projected_mem fusable nib) := by
  rw [gbMappable_eq function block_function arrays allowed_mem reserved_mem outs
    extra_projected_mem fusable nib h,
    gbNumTasks_eq function block_function arrays allowed_mem reserved_mem outs
    extra_projected_mem fusable nib h]
  refine ⟨?_, rfl, ?_⟩
  · intro k
    rw [mem_list_product]
    rw [List.forall₂_map_right_iff, List.forall₂_map_right_iff]
    simp [List.mem_range]
  · rw [length_list_product]
    simp [List.map_map, Function.comp_def, List.length_range]

/-- A witness: a concrete successful single-output call, its task count and
a sample key membership, via the amended theorem. -/
theorem C2_amended_witness :
    gbNumTasks (general_blockwise (V := Nat) (fun _ => 0) (fun _ => []) [] 1000 0
        [{ store_name := "a", shape := [5], dtype_size := 1, chunks := [2] }]
        0 true none) = 3
    ∧ ([2] ∈ gbMappable (general_blockwise (V := Nat) (fun _ => 0) (fun _ => [])
        [] 1000 0
        [{ store_name := "a", shape := [5], dtype_size := 1, chunks := [2] }]
        0 true none) ↔
      List.Forall₂ (fun i n => i < n) [2]
        ((general_blockwise_last_grid
          [{ store_name := "a", shape := [5], dtype_size := 1, chunks := [2] }]).map
            List.length)) := by
  have h := C2_amended (V := Nat) (fun _ => 0) (fun _ => []) [] 1000 0
    [{ store_name := "a", shape := [5], dtype_size := 1, chunks := [2] }]
    0 true none (by decide)
  constructor
  · rw [h.2.1]
    decide
  · exact h.1 [2]

theorem sum_le_sum_forall₂ {α β : Type} (f : α → Nat) (g : β → Nat)
    {l : List α} {l' : List β} (h : List.Forall₂ (fun a b => f a ≤ g b) l l') :
    (l.map f).sum ≤ (l'.map g).sum := by
  induction h with
  | nil => simp
  | cons hab _ ih =>
    simp only [List.map_cons, List.sum_cons]
    exact Nat.add_le_add hab ih

theorem foldr_max_le_forall₂ {α β : Type} (f : α → Nat) (g : β → Nat)
    {l : List α} {l' : List β} (h : List.Forall₂ (fun a b => f a ≤ g b) l l') :
    (l.map f).foldr max 0 ≤ (l'.map g).foldr max 0 := by
  induction h with
  | nil => simp
  | cons hab _ ih =>
    simp only [List.map_cons, List.foldr_cons]
    exact max_le_max hab ih

/-- C8: the projected memory computed by `general_blockwise` is monotonic
(non-decreasing) in each input array's chunk byte size and each output's
chunk byte size: enlarging chunk byte sizes pointwise (in particular any
single one, all else held fixed) never decreases `projected_mem`. -/
theorem C8_projected_mem_monotonic (arrays arrays' : List InputArray)
    (outs outs' : List OutputSpec) (reserved_mem extra_projected_mem : Nat)
    (hin : List.Forall₂ (fun a a' =>
      chunk_memory a.dtype_size a.chunks ≤ chunk_memory a'.dtype_size a'.chunks)
      arrays arrays')
    (hout : List.Forall₂ (fun o o' =>
      chunk_memory o.dtype_size (to_chunksize (normalize_chunks o.chunks o.shape)) ≤
        chunk_memory o'.dtype_size (to_chunksize (normalize_chunks o'.chunks o'.shape)))
      outs outs') :
    general_blockwise_projected_mem arrays outs reserved_mem extra_projected_mem ≤
      general_blockwise_projected_mem arrays' outs' reserved_mem extra_projected_mem := by
  unfold general_blockwise_projected_mem
  rw [foldl_add_map, foldl_add_map, foldl_max_map, foldl_max_map]
  simp only [Nat.zero_max]
  apply Nat.add_le_add
  · apply Nat.add_le_add_left
    exact sum_le_sum_forall₂ _ _
      (hin.imp fun a a' hab => Nat.mul_le_mul_right 2 hab)
  · exact foldr_max_le_forall₂ _ _
      (hout.imp fun o o' hab => Nat.mul_le_mul_right 2 hab)

/-- A witness: enlarging one input's chunk bytes (dtype 1 → 8) and the
output's chunk bytes (chunks [2] → [4]) does not decrease the projection. -/
theorem C8_projected_mem_monotonic_witness :
    general_blockwise_projected_mem
        [{ name := "x", shape := [8], chunks := [2], dtype_size := 1 }]
        [{ store_name := "t", shape := [8], dtype_size := 1, chunks := [2] }] 3 5 ≤
      general_blockwise_projected_mem
        [{ name := "x", shape := [8], chunks := [2], dtype_size := 8 }]
        [{ store_name := "t", shape := [8], dtype_size := 1, chunks := [4] }] 3 5 :=
  C8_projected_mem_monotonic _ _ _ _ 3 5
    (List.Forall₂.cons (by decide) List.Forall₂.nil)
    (List.Forall₂.cons (by decide) List.Forall₂.nil)

theorem foldl_mul_add (njs : List Nat) (ni init : Nat) :
    njs.foldl (fun acc nj => acc + ni * nj) init = init + ni * njs.sum := by
  induction njs generalizing init with
  | nil => simp
  | cons nj t ih =>
    simp only [List.foldl_cons, List.sum_cons, ih]
    ring

theorem total_num_input_blocks_eq {V : Type} (nib : List Nat)
    (preds : List (PrimitiveOperation V)) :
    total_num_input_blocks nib preds =
      ((nib.zip preds).map fun pr =>
        pr.1 * pr.2.pipeline.config.num_input_blocks.sum).sum := by
  unfold total_num_input_blocks
  generalize nib.zip preds = l
  suffices h : ∀ (init : Nat),
      l.foldl (fun acc pair =>
        pair.2.pipeline.config.num_input_blocks.foldl
          (fun acc2 nj => acc2 + pair.1 * nj) acc) init =
        init + (l.map fun pr =>
          pr.1 * pr.2.pipeline.config.num_input_blocks.sum).sum by
    simpa using h 0
  induction l with
  | nil => simp
  | cons pr t ih =>
    intro init
    rw [List.foldl_cons, foldl_mul_add, ih]
    simp only [List.map_cons, List.sum_cons]
    ring

theorem peak_go_isSome {V : Type} :
    ∀ (ops : List (PrimitiveOperation V)),
      (∀ p ∈ ops, ∃ ta, p.target_array = [ta]) →
      ∀ (m : MemoryModeller), ∃ m', peak_projected_mem_go ops m = some m' := by
  intro ops
  induction ops with
  | nil => intro _ m; exact ⟨m, rfl⟩
  | cons p ps ih =>
    intro h m
    obtain ⟨ta, hta⟩ := h p (List.mem_cons_self _ _)
    have hc : target_chunk_memory p = some (chunk_memory ta.dtype_size ta.chunks) := by
      unfold target_chunk_memory
      rw [hta]
    simp only [peak_projected_mem_go, hc]
    exact ih (fun q hq => h q (List.mem_cons_of_mem _ hq)) _

theorem peak_projected_mem_isSome_of_single {V : Type}
    (ops : List (PrimitiveOperation V))
    (h : ∀ p ∈ ops, ∃ ta, p.target_array = [ta]) :
    ∃ pk, peak_projected_mem ops = some pk := by
  obtain ⟨m', hm⟩ := peak_go_isSome ops h { current_mem := 0, peak_mem := 0 }
  refine ⟨m'.peak_mem, ?_⟩
  unfold peak_projected_mem
  rw [hm]
  rfl

/-- A counterexample to C5's "it never raises" clause: a fuse-candidate
predecessor built by a multi-output `general_blockwise` call has a
list-valued `target_array`, and `peak_projected_mem` then evaluates
`p.target_array.dtype` on a list — an `AttributeError` — so the decision
raises (`none`) instead of returning `false`, even though all candidacy
checks passed. -/
theorem C5_counterexample :
    is_fuse_candidate (nibOp [1]) = true
    ∧ is_fuse_candidate multiTargetOp = true
    ∧ can_fuse_multiple_primitive_ops (nibOp [1]) [multiTargetOp] none = none := by
  refine ⟨by decide, by decide, by decide⟩

/-- C5 (amended): when the peak-memory simulation is defined,
`can_fuse_multiple_primitive_ops` returns `some true` exactly when all
operations are fuse candidates, the peak projected memory of running the
predecessors in order is at most the consumer's `allowed_mem`, the
consumer's `num_input_blocks` tuple is uniform, and — with a
`max_total_num_input_blocks` bound — the total `Σ_i ni · Σ_j nj` over the
consumer's slot fan-ins and each predecessor's fan-ins stays within the
bound, otherwise all predecessor task counts equal the consumer's.  The
decision logic itself reports every failure as `false`, but the call
*raises* (an `AttributeError` escaping from `peak_projected_mem`) exactly
when the candidacy checks pass and some predecessor's `target_array` is not
a single unwrapped array; when every predecessor has a single target the
call never raises. -/
theorem C5_can_fuse_multiple_amended {V : Type} (primitive_op : PrimitiveOperation V)
    (predecessor_primitive_ops : List (PrimitiveOperation V))
    (max_total : Option Nat) :
    (can_fuse_multiple_primitive_ops primitive_op predecessor_primitive_ops
        max_total = some true ↔
      ((is_fuse_candidate primitive_op = true ∧
          ∀ p ∈ predecessor_primitive_ops, is_fuse_candidate p = true)
      ∧ (∃ pk, peak_projected_mem predecessor_primitive_ops = some pk ∧
          pk ≤ (primitive_op.allowed_mem : Int))
      ∧ (∀ n ∈ primitive_op.pipeline.config.num_input_blocks,
          n = primitive_op.pipeline.config.num_input_blocks.headD 0)
      ∧ (match max_total with
         | none => ∀ p ∈ predecessor_primitive_ops,
             primitive_op.num_tasks = p.num_tasks
         | some m =>
             ((primitive_op.pipeline.config.num_input_blocks.zip
                predecessor_primitive_ops).map fun pr =>
                  pr.1 * pr.2.pipeline.config.num_input_blocks.sum).sum ≤ m)))
    ∧ (can_fuse_multiple_primitive_ops primitive_op predecessor_primitive_ops
        max_total = none ↔
      ((is_fuse_candidate primitive_op = true ∧
          ∀ p ∈ predecessor_primitive_ops, is_fuse_candidate p = true)
      ∧ peak_projected_mem predecessor_primitive_ops = none))
    ∧ ((∀ p ∈ predecessor_primitive_ops, ∃ ta, p.target_array = [ta]) →
      ∃ b, can_fuse_multiple_primitive_ops primitive_op predecessor_primitive_ops
        max_total = some b) := by
  by_cases h1 : is_fuse_candidate primitive_op = true ∧
      ∀ p ∈ predecessor_primitive_ops, is_fuse_candidate p = true
  · have h1b : is_fuse_candidate primitive_op ∧
        predecessor_primitive_ops.all (fun p => is_fuse_candidate p) := by
      simpa [List.all_eq_true] using h1
    cases hpk : peak_projected_mem predecessor_primitive_ops with
    | none =>
      have hval : can_fuse_multiple_primitive_ops primitive_op
          predecessor_primitive_ops max_total = none := by
        unfold can_fuse_multiple_primitive_ops
        rw [if_pos h1b, hpk]
      refine ⟨?_, ?_, ?_⟩
      · rw [hval]
        constructor
        · intro hcontr
          exact Option.noConfusion hcontr
        · rintro ⟨-, ⟨pk, hpk2, -⟩, -⟩
          exact Option.noConfusion hpk2
      · rw [hval]
        exact ⟨fun _ => ⟨h1, rfl⟩, fun _ => rfl⟩
      · intro hsingle
        obtain ⟨pk, hp⟩ := peak_projected_mem_isSome_of_single
          predecessor_primitive_ops hsingle
        rw [hpk] at hp
        exact Option.noConfusion hp
    | some pk =>
      have hstep : can_fuse_multiple_primitive_ops primitive_op
          predecessor_primitive_ops max_total =
          (if pk > (primitive_op.allowed_mem : Int) then some false
           else
             if ¬ (primitive_op.pipeline.config.num_input_blocks.all fun n =>
                 primitive_op.pipeline.config.num_input_blocks.headD 0 = n) then
               some false
             else
               match max_total with
               | none => some (predecessor_primitive_ops.all fun p =>
                   primitive_op.num_tasks = p.num_tasks)
               | some m => some (total_num_input_blocks
                   primitive_op.pipeline.config.num_input_blocks
                   predecessor_primitive_ops ≤ m)) := by
        unfold can_fuse_multiple_primitive_ops
        rw [if_pos h1b, hpk]
      have hexpk : (∃ pk2, (some pk : Option Int) = some pk2 ∧
          pk2 ≤ (primitive_op.allowed_mem : Int)) ↔
          pk ≤ (primitive_op.allowed_mem : Int) := by
        constructor
        · rintro ⟨pk2, hpk2, hle⟩
          injection hpk2 with hpk3
          rw [hpk3]
          exact hle
        · intro hle
          exact ⟨pk, rfl, hle⟩
      refine ⟨?_, ?_, ?_⟩
      · rw [hstep]
        by_cases h2 : pk > (primitive_op.allowed_mem : Int)
        · rw [if_pos h2]
          constructor
          · intro hcontr
            injection hcontr with hb
            exact Bool.noConfusion hb
          · rintro ⟨-, hex, -⟩
            exact absurd h2 (not_lt_of_le (hexpk.mp hex))
        · rw [if_neg h2]
          have h2le : pk ≤ (primitive_op.allowed_mem : Int) := le_of_not_lt h2
          by_cases h3 : ∀ n ∈ primitive_op.pipeline.config.num_input_blocks,
              n = primitive_op.pipeline.config.num_input_blocks.headD 0
          · have h3b : ¬ ¬ (primitive_op.pipeline.config.num_input_blocks.all
                fun n => primitive_op.pipeline.config.num_input_blocks.headD 0 = n) := by
              simp only [not_not, List.all_eq_true, decide_eq_true_eq]
              intro n hn
              exact (h3 n hn).symm
            rw [if_neg h3b]
            cases max_total with
            | none =>
              simp only [Option.some.injEq, List.all_eq_true, decide_eq_true_eq]
              constructor
              · intro hall
                exact ⟨h1, ⟨pk, rfl, h2le⟩, h3, hall⟩
              · rintro ⟨-, -, -, hall⟩
                exact hall
            | some m =>
              rw [total_num_input_blocks_eq]
              simp only [Option.some.injEq, decide_eq_true_eq]
              constructor
              · intro htot
                exact ⟨h1, ⟨pk, rfl, h2le⟩, h3, htot⟩
              · rintro ⟨-, -, -, htot⟩
                exact htot
          · have h3b : ¬ (primitive_op.pipeline.config.num_input_blocks.all
                fun n => primitive_op.pipeline.config.num_input_blocks.headD 0 = n) := by
              simp only [List.all_eq_true, decide_eq_true_eq]
              intro hall
              apply h3
              intro n hn
              exact (hall n hn).symm
            rw [if_pos h3b]
            constructor
            · intro hcontr
              injection hcontr with hb
              exact Bool.noConfusion hb
            · rintro ⟨-, -, hun, -⟩
              exact absurd hun h3
      · rw [hstep]
        constructor
        · intro hnone
          by_cases h2 : pk > (primitive_op.allowed_mem : Int)
          · rw [if_pos h2] at hnone
            exact Option.noConfusion hnone
          · rw [if_neg h2] at hnone
            by_cases h3b : ¬ (primitive_op.pipeline.config.num_input_blocks.all
                fun n => primitive_op.pipeline.config.num_input_blocks.headD 0 = n)
            · rw [if_pos h3b] at hnone
              exact Option.noConfusion hnone
            · rw [if_neg h3b] at hnone
              cases max_total with
              | none => exact Option.noConfusion hnone
              | some m => exact Option.noConfusion hnone
        · rintro ⟨-, hpknone⟩
          exact Option.noConfusion hpknone
      · intro _
        rw [hstep]
        by_cases h2 : pk > (primitive_op.allowed_mem : Int)
        · exact ⟨false, by rw [if_pos h2]⟩
        · rw [if_neg h2]
          by_cases h3b : ¬ (primitive_op.pipeline.config.num_input_blocks.all
              fun n => primitive_op.pipeline.config.num_input_blocks.headD 0 = n)
          · exact ⟨false, by rw [if_pos h3b]⟩
          · rw [if_neg h3b]
            cases max_total with
            | none => exact ⟨_, rfl⟩
            | some m => exact ⟨_, rfl⟩
  · have h1b : ¬ (is_fuse_candidate primitive_op ∧
        predecessor_primitive_ops.all (fun p => is_fuse_candidate p)) := by
      intro hc
      apply h1
      simpa [List.all_eq_true] using hc
    have hval : can_fuse_multiple_primitive_ops primitive_op
        predecessor_primitive_ops max_total = some false := by
      unfold can_fuse_multiple_primitive_ops
      rw [if_neg h1b]
    refine ⟨?_, ?_, ?_⟩
    · rw [hval]
      constructor
      · intro hcontr
        injection hcontr with hb
        exact Bool.noConfusion hb
      · rintro ⟨hcand, -⟩
        exact absurd hcand h1
    · rw [hval]
      constructor
      · intro hcontr
        exact Option.noConfusion hcontr
      · rintro ⟨hcand, -⟩
        exact absurd hcand h1
    · intro _
      exact ⟨false, hval⟩

/-- A counterexample to C6: with producer fan-ins `[1, 1]` and consumer
fan-ins `[1, 2]`, `fuse` multiplies every producer entry by the consumer's
*first* fan-in only, giving `[1, 1]`, not the elementwise product `[1, 2]`. -/
theorem C6_counterexample :
    (fuse (nibOp [1, 1]) (nibOp [1, 2])).pipeline.config.num_input_blocks = [1, 1]
    ∧ (fuse (nibOp [1, 1]) (nibOp [1, 2])).pipeline.config.num_input_blocks ≠
      List.zipWith (fun a b => a * b)
        (nibOp [1, 1]).pipeline.config.num_input_blocks
        (nibOp [1, 2]).pipeline.config.num_input_blocks := by
  constructor
  · decide
  · decide

/-- C6 (amended): in pairwise fusion `fuse(P1, P2)`, the fused operation's
`num_input_blocks` tuple has an entry per slot of `P1`, each equal to
`P1.num_input_blocks[i] * P2.num_input_blocks[0]` — the consumer's *first*
fan-in, which coincides with the elementwise product only when the
consumer's fan-in tuple is uniform. -/
theorem C6_amended {V : Type} (op1 op2 : PrimitiveOperation V) (i : Nat)
    (h : i < op1.pipeline.config.num_input_blocks.length) :
    ((fuse op1 op2).pipeline.config.num_input_blocks).getD i 0 =
      op1.pipeline.config.num_input_blocks.getD i 0 *
        op2.pipeline.config.num_input_blocks.headD 0 := by
  have hf : (fuse op1 op2).pipeline.config.num_input_blocks
      = op1.pipeline.config.num_input_blocks.map
          (fun n => n * op2.pipeline.config.num_input_blocks.headD 0) := rfl
  rw [hf]
  generalize op1.pipeline.config.num_input_blocks = l at h ⊢
  generalize op2.pipeline.config.num_input_blocks.headD 0 = c
  induction l generalizing i with
  | nil => exact absurd h (Nat.not_lt_zero i)
  | cons a t ih =>
    cases i with
    | zero => simp
    | succ j =>
      simp only [List.map_cons, List.getD_cons_succ]
      exact ih j (Nat.lt_of_succ_lt_succ h)

/-- A witness: the amended formula evaluated at slot 1 of the concrete
operations of the counterexample. -/
theorem C6_amended_witness :
    1 < (nibOp [1, 1]).pipeline.config.num_input_blocks.length ∧
    ((fuse (nibOp [1, 1]) (nibOp [1, 2])).pipeline.config.num_input_blocks).getD 1 0 =
      (nibOp [1, 1]).pipeline.config.num_input_blocks.getD 1 0 *
        (nibOp [1, 2]).pipeline.config.num_input_blocks.headD 0 :=
  ⟨by decide, C6_amended (nibOp [1, 1]) (nibOp [1, 2]) 1 (by decide)⟩

theorem peak_go_map_fusable {V : Type} (g : PrimitiveOperation V → Bool) :
    ∀ (ps : List (PrimitiveOperation V)) (m : MemoryModeller),
      peak_projected_mem_go (ps.map fun p => { p with fusable := g p }) m =
        peak_projected_mem_go ps m := by
  intro ps
  induction ps with
  | nil => intro m; rfl
  | cons p t ih =>
    intro m
    simp only [List.map_cons, peak_projected_mem_go]
    have hc : target_chunk_memory { p with fusable := g p } =
        target_chunk_memory p := rfl
    rw [hc]
    cases target_chunk_memory p with
    | none => rfl
    | some c => exact ih _

/-- C9: the fusion decisions `is_fuse_candidate`, `can_fuse_primitive_ops`
and `can_fuse_multiple_primitive_ops` never consult the `fusable` flag —
operations identical except for `fusable` receive identical decisions
(including whether the multi-way decision raises) — and every operation
returned by `fuse` or `fuse_multiple` has `fusable = true` regardless of
its inputs' flags. -/
theorem C9_fusable_ignored {V : Type} (op op2 : PrimitiveOperation V)
    (b b2 : Bool) (preds : List (PrimitiveOperation V))
    (g : PrimitiveOperation V → Bool) (max_total : Option Nat)
    (mpreds : List (Option (PrimitiveOperation V))) :
    (is_fuse_candidate { op with fusable := b } = is_fuse_candidate op)
    ∧ (can_fuse_primitive_ops { op with fusable := b } { op2 with fusable := b2 } =
        can_fuse_primitive_ops op op2)
    ∧ (can_fuse_multiple_primitive_ops { op with fusable := b }
        (preds.map fun p => { p with fusable := g p }) max_total =
        can_fuse_multiple_primitive_ops op preds max_total)
    ∧ (fuse op op2).fusable = true
    ∧ (∀ fop, fuse_multiple op mpreds = some fop → fop.fusable = true) := by
  refine ⟨rfl, rfl, ?_, rfl, ?_⟩
  · have key : can_fuse_multiple_primitive_ops { op with fusable := b }
        (preds.map fun p => { p with fusable := g p }) max_total =
        can_fuse_multiple_primitive_ops op
          (preds.map fun p => { p with fusable := g p }) max_total := rfl
    rw [key]
    have hall : ((preds.map fun p => { p with fusable := g p }).all
        fun p => is_fuse_candidate p) = (preds.all fun p => is_fuse_candidate p) := by
      rw [List.all_map]
      rfl
    have hpeak : peak_projected_mem (preds.map fun p => { p with fusable := g p }) =
        peak_projected_mem preds := by
      unfold peak_projected_mem
      rw [peak_go_map_fusable]
    have htot : total_num_input_blocks op.pipeline.config.num_input_blocks
        (preds.map fun p => { p with fusable := g p }) =
        total_num_input_blocks op.pipeline.config.num_input_blocks preds := by
      unfold total_num_input_blocks
      rw [List.zip_map_right, List.foldl_map]
      rfl
    have hnt : ((preds.map fun p => { p with fusable := g p }).all
        fun p => op.num_tasks = p.num_tasks) =
        (preds.all fun p => op.num_tasks = p.num_tasks) := by
      rw [List.all_map]
      rfl
    simp only [can_fuse_multiple_primitive_ops]
    rw [hall, hpeak, htot, hnt]
  · intro fop h
    simp only [fuse_multiple] at h
    cases hpm : peak_projected_mem (mpreds.filterMap id) with
    | none =>
      rw [hpm] at h
      exact Option.noConfusion h
    | some pk =>
      rw [hpm] at h
      injection h with h2
      subst h2
      rfl

theorem exec_stage_func_eq {E : Type} (f : Nat → Except E Unit) :
    exec_stage_func f =
      match f 0 with
      | .ok u => .ok u
      | .error _ =>
        match f 1 with
        | .ok u => .ok u
        | .error _ => f 2 := by
  cases h0 : f 0 with
  | ok u => simp [exec_stage_func, retrying, h0]
  | error e0 =>
    cases h1 : f 1 with
    | ok u => simp [exec_stage_func, retrying, h0, h1]
    | error e1 => simp [exec_stage_func, retrying, h0, h1]

/-- C10: every task run by the Python executor is attempted at most 3
times; earlier attempts are retried on any failure (not only read
failures); a success stops the retrying and bumps the task callback exactly
once for that task; if all 3 attempts raise, the last exception propagates
(as the payload of tenacity's `RetryError`) and DAG execution stops,
leaving later tasks unexecuted. -/
theorem C10_executor_retries (E : Type) :
    (∀ f g : Nat → Except E Unit, (∀ i, i < 3 → f i = g i) →
      exec_stage_func f = exec_stage_func g)
    ∧ (∀ f : Nat → Except E Unit, ∀ n, n < 3 → ∀ u,
        (∀ i, i < n → (f i).isOk = false) → f n = .ok u →
        exec_stage_func f = .ok u)
    ∧ (∀ f : Nat → Except E Unit,
        (∀ i, i < 3 → (f i).isOk = false) → exec_stage_func f = f 2)
    ∧ (∀ ts : List (Nat → Except E Unit), ∀ cb,
        (∀ t ∈ ts, (exec_stage_func t).isOk = true) →
        run_tasks ts cb = .ok (cb + ts.length))
    ∧ (∀ pre post : List (Nat → Except E Unit), ∀ t cb e,
        (∀ g ∈ pre, (exec_stage_func g).isOk = true) →
        exec_stage_func t = .error e →
        run_tasks (pre ++ t :: post) cb = .error e)
    ∧ (∀ ts : List (Nat → Except E Unit), ∀ cb : Nat, ∀ e : E,
        ∀ rest : List (List (Stage E)), run_tasks ts cb = .error e →
        execute_dag ([Stage.mapped ts] :: rest) cb = .error e) := by
  refine ⟨?_, ?_, ?_, ?_, ?_, ?_⟩
  · intro f g h
    rw [exec_stage_func_eq, exec_stage_func_eq,
      h 0 (by omega), h 1 (by omega), h 2 (by omega)]
  · intro f n hn u hfail hok
    rw [exec_stage_func_eq]
    interval_cases n
    · rw [hok]
    · have h0 := hfail 0 (by omega)
      cases h : f 0 with
      | ok v => simp [h, Except.isOk, Except.toBool] at h0
      | error e0 => rw [hok]
    · have h0 := hfail 0 (by omega)
      have h1 := hfail 1 (by omega)
      cases h : f 0 with
      | ok v => simp [h, Except.isOk, Except.toBool] at h0
      | error e0 =>
        cases h' : f 1 with
        | ok v => simp [h', Except.isOk, Except.toBool] at h1
        | error e1 => rw [hok]
  · intro f hfail
    rw [exec_stage_func_eq]
    have h0 := hfail 0 (by omega)
    have h1 := hfail 1 (by omega)
    cases h : f 0 with
    | ok v => simp [h, Except.isOk, Except.toBool] at h0
    | error e0 =>
      cases h' : f 1 with
      | ok v => simp [h', Except.isOk, Except.toBool] at h1
      | error e1 => rfl
  · intro ts
    induction ts with
    | nil => intro cb _; simp [run_tasks]
    | cons t rest ih =>
      intro cb hok
      have ht := hok t (by simp)
      cases h : exec_stage_func t with
      | ok u =>
        simp only [run_tasks, h]
        rw [ih (cb + 1) (fun t' ht' => hok t' (by simp [ht']))]
        congr 1
        simp [List.length_cons]
        omega
      | error e => simp [h, Except.isOk, Except.toBool] at ht
  · intro pre
    induction pre with
    | nil =>
      intro post t cb e _ herr
      simp [run_tasks, herr]
    | cons q rest ih =>
      intro post t cb e hok herr
      have hq := hok q (by simp)
      cases h : exec_stage_func q with
      | ok u =>
        simp only [List.cons_append, run_tasks, h]
        exact ih post t (cb + 1) e (fun g hg => hok g (by simp [hg])) herr
      | error e' => simp [h, Except.isOk, Except.toBool] at hq
  · intro ts cb e rest h
    simp [execute_dag, run_stages, run_stage, h]

/-- A witness: a task that fails twice then succeeds yields success; a task
failing on every attempt yields its third attempt's error; two successful
tasks bump the callback twice; a failing second task aborts the DAG with
its last error. -/
theorem C10_executor_retries_witness :
    exec_stage_func (fun i => if i < 2 then Except.error i else Except.ok ()) =
      Except.ok ()
    ∧ exec_stage_func (fun i : Nat => (Except.error (i + 10) : Except Nat Unit)) =
      Except.error 12
    ∧ run_tasks [fun _ : Nat => (Except.ok () : Except Nat Unit),
        fun _ : Nat => (Except.ok () : Except Nat Unit)] 0 = Except.ok 2
    ∧ execute_dag [[Stage.mapped [fun _ : Nat => (Except.ok () : Except Nat Unit),
        fun i : Nat => (Except.error (i + 10) : Except Nat Unit)]]] 0 =
      Except.error 12 := by
  have h := C10_executor_retries Nat
  refine ⟨h.2.1 _ 2 (by omega) () (by decide) (by rfl),
    h.2.2.1 _ (by decide), ?_, ?_⟩
  · have hr := h.2.2.2.1 [fun _ : Nat => (Except.ok () : Except Nat Unit),
      fun _ : Nat => (Except.ok () : Except Nat Unit)] 0
      (by intro t ht; simp at ht; rcases ht with rfl | rfl <;> decide)
    simpa using hr
  · apply h.2.2.2.2.2 _ 0 12 []
    exact h.2.2.2.2.1 [fun _ : Nat => (Except.ok () : Except Nat Unit)] []
      (fun i : Nat => (Except.error (i + 10) : Except Nat Unit)) 0 12
      (by intro g hg; simp at hg; subst hg; decide) (by rfl)

/-- A counterexample to C7: in a matmul-like lowering (`A: ik`, `B: kj`,
out `ij`, contraction axis `k` of 2 blocks), the first argument carries a
contraction axis, so the flattened block function flattens *all* arguments
into leaves: the result has `4` entries, not `function_nargs = 2` (the
number of array argument pairs). -/
theorem C7_counterexample :
    (make_blockwise_function_flattened
        [("A", some ["i", "k"]), ("B", some ["k", "j"])] ["i", "j"]
        (fun _ => [2, 2]) [] ("out", [0, 0])).length = 4
    ∧ (make_blockwise_function_flattened
        [("A", some ["i", "k"]), ("B", some ["k", "j"])] ["i", "j"]
        (fun _ => [2, 2]) [] ("out", [0, 0])).length ≠
      [("A", some ["i", "k"]), ("B", some ["k", "j"])].length := by
  constructor
  · rfl
  · decide

/-- C7 (amended): the flattened block function of the index-notation
lowering returns exactly one argument structure per argument pair — hence
`function_nargs` structures, one per array argument — for every output
key, *provided* the first argument is a literal or carries no contraction
axis; when the first argument carries a contraction axis the result is
instead the flat list of all leaf block keys, one per input block read. -/
theorem C7_amended (argpairs : List (String × Option (List String)))
    (out_indices : List String) (numblocks : String → List Nat)
    (new_axes : List (String × Nat))
    (h1 : argpairs ≠ [])
    (h2 : ∀ pr ∈ argpairs.head?, ∀ ind ∈ pr.2,
        ind.all (fun label => out_indices.contains label) = true) :
    ∀ out_key, (make_blockwise_function_flattened argpairs out_indices numblocks
        new_axes out_key).length = argpairs.length := by
  intro out_key
  cases hap : argpairs with
  | nil => exact absurd hap h1
  | cons pr rest =>
    subst hap
    rcases pr with ⟨name, ind?⟩
    cases ind? with
    | none =>
      simp only [make_blockwise_function_flattened, make_blockwise_function,
        List.map_cons]
      simp [List.length_map]
    | some ind =>
      have hall : ind.all (fun label => out_indices.contains label) = true :=
        h2 (name, some ind) rfl ind rfl
      simp only [make_blockwise_function_flattened, make_blockwise_function,
        List.map_cons]
      rw [hall]
      simp [List.length_map]

/-- A witness: a pointwise two-input lowering (`x: i`, `y: i`, out `i`)
yields exactly 2 argument structures at the sample key `[1]`. -/
theorem C7_amended_witness :
    (make_blockwise_function_flattened [("x", some ["i"]), ("y", some ["i"])]
        ["i"] (fun _ => [2]) [] ("out", [1])).length =
      [("x", some ["i"]), ("y", some ["i"])].length :=
  C7_amended [("x", some ["i"]), ("y", some ["i"])] ["i"] (fun _ => [2]) []
    (by decide)
    (by
      intro pr hpr ind hind
      simp at hpr
      subst hpr
      simp at hind
      subst hind
      rfl)
    ("out", [1])

mutual
theorem mapNested_congr {V : Type} (f g : String → List Nat → V) :
    ∀ (t : NCI), (∀ p ∈ t.leaves, f p.1 p.2 = g p.1 p.2) →
      mapNested f t = mapNested g t
  | NCI.leaf n c, h => by
    simp only [mapNested]
    rw [h (n, c) (by simp [NCI.leaves])]
  | NCI.nest xs, h => by
    simp only [mapNested]
    rw [mapNestedList_congr f g xs (by simpa [NCI.leaves] using h)]
  | NCI.lit v, _ => rfl
theorem mapNestedList_congr {V : Type} (f g : String → List Nat → V) :
    ∀ (ts : NCIList), (∀ p ∈ NCIList.leavesAll ts, f p.1 p.2 = g p.1 p.2) →
      mapNestedList f ts = mapNestedList g ts
  | NCIList.nil, _ => rfl
  | NCIList.cons x xs, h => by
    simp only [mapNestedList]
    rw [mapNested_congr f g x
        (fun p hp => h p (by simp [NCIList.leavesAll, hp])),
      mapNestedList_congr f g xs
        (fun p hp => h p (by simp [NCIList.leavesAll, hp]))]
end

theorem compute_chunk_congr {V : Type} (config : BlockwiseSpec V)
    (s1 s2 : Store V) (k : List Nat)
    (h : ∀ p ∈ (config.block_function ("out", k)).flatMap NCI.leaves,
      s1 p.1 p.2 = s2 p.1 p.2) :
    compute_chunk config s1 k = compute_chunk config s2 k := by
  unfold compute_chunk
  congr 1
  apply List.map_congr_left
  intro t ht
  exact mapNested_congr _ _ t
    (fun p hp => h p (List.mem_flatMap.mpr ⟨t, ht, hp⟩))

theorem apply_blockwise_other {V : Type} (config : BlockwiseSpec V)
    (w : String) (ws : List String) (hw : config.writes_list = w :: ws)
    (store : Store V) (k : List Nat) (n : String) (c : List Nat) (hn : n ≠ w) :
    apply_blockwise config store k n c = store n c := by
  unfold apply_blockwise
  rw [hw]
  simp [storeWrite, hn]

theorem apply_blockwise_other_key {V : Type} (config : BlockwiseSpec V)
    (w : String) (ws : List String) (hw : config.writes_list = w :: ws)
    (store : Store V) (k : List Nat) (n : String) (c : List Nat) (hc : c ≠ k) :
    apply_blockwise config store k n c = store n c := by
  unfold apply_blockwise
  rw [hw]
  simp [storeWrite, hc]

theorem run_keys_writes_only {V : Type} (config : BlockwiseSpec V)
    (w : String) (ws : List String) (hw : config.writes_list = w :: ws) :
    ∀ (keys : List (List Nat)) (store : Store V) (n : String) (c : List Nat),
      n ≠ w → run_keys config keys store n c = store n c := by
  intro keys
  induction keys with
  | nil => intro store n c _; rfl
  | cons k ks ih =>
    intro store n c hn
    show run_keys config ks (apply_blockwise config store k) n c = store n c
    rw [ih (apply_blockwise config store k) n c hn,
      apply_blockwise_other config w ws hw store k n c hn]

theorem run_keys_stable_cell {V : Type} (config : BlockwiseSpec V)
    (w : String) (ws : List String) (hw : config.writes_list = w :: ws) :
    ∀ (keys : List (List Nat)) (store : Store V) (c : List Nat),
      c ∉ keys → run_keys config keys store w c = store w c := by
  intro keys
  induction keys with
  | nil => intro store c _; rfl
  | cons k ks ih =>
    intro store c hc
    show run_keys config ks (apply_blockwise config store k) w c = store w c
    rw [ih (apply_blockwise config store k) c (fun h => hc (List.mem_cons_of_mem _ h)),
      apply_blockwise_other_key config w ws hw store k w c
        (fun h => hc (h ▸ List.mem_cons_self _ _))]

theorem run_keys_computes {V : Type} (config : BlockwiseSpec V)
    (w : String) (ws : List String) (hw : config.writes_list = w :: ws)
    (hreads : ∀ (k : List Nat) p,
      p ∈ (config.block_function ("out", k)).flatMap NCI.leaves → p.1 ≠ w) :
    ∀ (keys : List (List Nat)) (store : Store V) (j : List Nat),
      j ∈ keys → run_keys config keys store w j = compute_chunk config store j := by
  intro keys
  induction keys with
  | nil => intro store j h; cases h
  | cons k ks ih =>
    intro store j hj
    show run_keys config ks (apply_blockwise config store k) w j = _
    by_cases hjk : j ∈ ks
    · rw [ih (apply_blockwise config store k) j hjk]
      apply compute_chunk_congr
      intro p hp
      exact apply_blockwise_other config w ws hw store k p.1 p.2 (hreads j p hp)
    · have hjeq : j = k := by
        rcases List.mem_cons.mp hj with h | h
        · exact h
        · exact absurd h hjk
      subst hjeq
      rw [run_keys_stable_cell config w ws hw ks _ j hjk]
      unfold apply_blockwise
      rw [hw]
      simp [storeWrite, compute_chunk]

theorem fuse_sim {V : Type} (c1 c2 cf : BlockwiseSpec V) (t1 t2 : String)
    (store₀ : Store V) (keys1 : List (List Nat))
    (hw1 : c1.writes_list = [t1]) (hw2 : c2.writes_list = [t2]) (hne : t1 ≠ t2)
    (htag : ∀ n n' c, c1.block_function (n, c) = c1.block_function (n', c))
    (hreads : ∀ key p, p ∈ ((c1.block_function key).flatMap NCI.leaves) →
      p.1 ≠ t1 ∧ p.1 ≠ t2)
    (hcfb : cf.block_function = fused_blockwise_func c1 c2)
    (hcff : cf.function = fused_func c1 c2)
    (hcfw : cf.writes_list = c2.writes_list) :
    ∀ (keys : List (List Nat)) (f s : Store V),
      (∀ k ∈ keys, ∃ j, c2.block_function ("out", k) = [NCI.leaf t1 j] ∧ j ∈ keys1) →
      (∀ c, f t2 c = s t2 c) →
      (∀ n c, n ≠ t2 → f n c = store₀ n c) →
      (∀ n c, n ≠ t2 → s n c = run_keys c1 keys1 store₀ n c) →
      ∀ c, run_keys cf keys f t2 c = run_keys c2 keys s t2 c := by
  intro keys
  induction keys with
  | nil => intro f s _ inv1 _ _ c; exact inv1 c
  | cons k ks ih =>
    intro f s hb2 inv1 inv2 inv3 c
    obtain ⟨j, hbj, hjk1⟩ := hb2 k (List.mem_cons_self _ _)
    -- the two tasks write the same value to (t2, k)
    have hval : compute_chunk cf f k = compute_chunk c2 s k := by
      unfold compute_chunk
      rw [hcfb, hcff]
      unfold fused_blockwise_func
      rw [hbj]
      have hmatch : (match [NCI.leaf t1 j] with
          | [NCI.leaf n c] => c1.block_function (n, c)
          | _ => []) = c1.block_function (t1, j) := rfl
      rw [hmatch, htag t1 "out" j]
      show fused_func c1 c2
          ((c1.block_function ("out", j)).map (mapNested fun n c => f n c)) =
        c2.function ([NCI.leaf t1 j].map (mapNested fun n c => s n c))
      unfold fused_func
      simp only [List.map_cons, List.map_nil, mapNested]
      congr 2
      have hf : c1.function
          ((c1.block_function ("out", j)).map (mapNested fun n c => f n c)) =
          compute_chunk c1 store₀ j := by
        show compute_chunk c1 f j = compute_chunk c1 store₀ j
        apply compute_chunk_congr
        intro p hp
        exact inv2 p.1 p.2 (hreads ("out", j) p hp).2
      have hs : s t1 j = compute_chunk c1 store₀ j := by
        rw [inv3 t1 j hne]
        exact run_keys_computes c1 t1 [] hw1
          (fun k' p hp => (hreads ("out", k') p hp).1) keys1 store₀ j hjk1
      rw [hf, hs]
    -- step both runs and re-establish the invariants
    show run_keys cf ks (apply_blockwise cf f k) t2 c =
      run_keys c2 ks (apply_blockwise c2 s k) t2 c
    have hstepf : apply_blockwise cf f k =
        storeWrite f t2 k (compute_chunk cf f k) := by
      unfold apply_blockwise
      rw [hcfw, hw2]
      rfl
    have hsteps : apply_blockwise c2 s k =
        storeWrite s t2 k (compute_chunk c2 s k) := by
      unfold apply_blockwise
      rw [hw2]
      rfl
    apply ih (apply_blockwise cf f k) (apply_blockwise c2 s k)
      (fun k' hk' => hb2 k' (List.mem_cons_of_mem _ hk'))
    · intro c'
      rw [hstepf, hsteps, hval]
      unfold storeWrite
      by_cases hc' : c' = k
      · simp [hc']
      · simp [hc', inv1 c']
    · intro n c' hn
      rw [hstepf]
      unfold storeWrite
      simp [hn, inv2 n c' hn]
    · intro n c' hn
      rw [hsteps]
      unfold storeWrite
      simp [hn, inv3 n c' hn]

/-- A counterexample to C1 as stated: with `P` the concrete producer
(reads `x`, writes `a`, kernel `+1`) and `Q` the concrete consumer (reads
`a`, writes `b`, kernel `*2`), `can_fuse_pair(P, Q)` holds and the kernels
are pure, yet executing `fuse(P, Q)` writes `b[0] = 2` while executing `Q`
then `P` sequentially (the order the claim prescribes) leaves `b[0] = 0`:
the claim's sequential reference order runs the consumer before its
producer.  (The code's `fuse` treats its *first* argument as the producer.) -/
theorem C1_counterexample :
    can_fuse_primitive_ops producerOp consumerOp = true
    ∧ run_op (fuse producerOp consumerOp) zeroStore "b" [0] = 2
    ∧ run_op producerOp (run_op consumerOp zeroStore) "b" [0] = 0
    ∧ run_op (fuse producerOp consumerOp) zeroStore "b" [0] ≠
      run_op producerOp (run_op consumerOp zeroStore) "b" [0] := by
  refine ⟨by decide, by decide, by decide, by decide⟩

/-- C1 (amended): for `fuse(P, Q)` with `P` the producer (first argument,
whose target is not materialized) and `Q` the consumer, with
`can_fuse_pair(P, Q)` true and pure deterministic kernels, and with the
structural conditions the code relies on — `P` and `Q` write single
targets `t1 ≠ t2`; on each of its output keys `Q` reads exactly one chunk
of `t1`, produced by `P`; `P`'s block function ignores the key's name tag;
`P` reads neither target — executing `fuse(P, Q)` over all of `Q`'s output
keys writes `Q`'s target bit-identically to executing `P` over all of its
output keys and then `Q` over all of its output keys sequentially, and
leaves every other array (in particular `P`'s target `t1`) untouched. -/
theorem C1_amended {V : Type} (op1 op2 : PrimitiveOperation V)
    (store₀ : Store V) (t1 t2 : String)
    (hw1 : op1.pipeline.config.writes_list = [t1])
    (hw2 : op2.pipeline.config.writes_list = [t2])
    (hne : t1 ≠ t2)
    (hcan : can_fuse_primitive_ops op1 op2 = true)
    (hb2 : ∀ k ∈ op2.pipeline.mappable, ∃ j,
      op2.pipeline.config.block_function ("out", k) = [NCI.leaf t1 j] ∧
        j ∈ op1.pipeline.mappable)
    (htag : ∀ n n' c, op1.pipeline.config.block_function (n, c) =
      op1.pipeline.config.block_function (n', c))
    (hreads : ∀ key p,
      p ∈ ((op1.pipeline.config.block_function key).flatMap NCI.leaves) →
        p.1 ≠ t1 ∧ p.1 ≠ t2) :
    (∀ c, run_op (fuse op1 op2) store₀ t2 c =
      run_op op2 (run_op op1 store₀) t2 c)
    ∧ (∀ n c, n ≠ t2 → run_op (fuse op1 op2) store₀ n c = store₀ n c) := by
  have hfw : (fuse op1 op2).pipeline.config.writes_list =
      op2.pipeline.config.writes_list := rfl
  constructor
  · intro c
    have hsim := fuse_sim op1.pipeline.config op2.pipeline.config
      (fuse op1 op2).pipeline.config t1 t2 store₀ op1.pipeline.mappable
      hw1 hw2 hne htag hreads rfl rfl hfw
      op2.pipeline.mappable store₀ (run_op op1 store₀) hb2
      (fun c' => (run_keys_writes_only op1.pipeline.config t1 [] hw1
        op1.pipeline.mappable store₀ t2 c' (Ne.symm hne)).symm)
      (fun _ _ _ => rfl)
      (fun _ _ _ => rfl)
    exact hsim c
  · intro n c hn
    exact run_keys_writes_only (fuse op1 op2).pipeline.config t2 []
      (hfw.trans hw2) op2.pipeline.mappable store₀ n c hn

/-- A witness: fusing the concrete producer (reads `x`, writes `a`, `+1`)
into the concrete consumer (reads `a`, writes `b`, `*2`) agrees with the
sequential producer-then-consumer execution on the final target `b`, and
does not touch the intermediate target `a`. -/
theorem C1_amended_witness :
    run_op (fuse producerOp consumerOp) zeroStore "b" [0] =
      run_op consumerOp (run_op producerOp zeroStore) "b" [0]
    ∧ run_op (fuse producerOp consumerOp) zeroStore "a" [0] = zeroStore "a" [0] := by
  have h := C1_amended producerOp consumerOp zeroStore "a" "b" rfl rfl
    (by decide) (by decide)
    (by
      intro k hk
      exact ⟨k, rfl, hk⟩)
    (fun n n' c => rfl)
    (by
      intro key p hp
      have hp' : p ∈ ([NCI.leaf "x" key.2].flatMap NCI.leaves) := hp
      simp [NCI.leaves] at hp'
      subst hp'
      constructor
      · show "x" ≠ "a"
        decide
      · show "x" ≠ "b"
        decide)
  exact ⟨h.1 [0], h.2 "a" [0] (by decide)⟩

end Cubed

